import Mathlib

/-!
Verification of the DVRL domain-adaptation notebook
(`dvrl/main_domain_adaptation.ipynb`).

The notebook is a thin orchestration script: it calls
`load_rossmann_data`, `preprocess_data`, `dvrl.Dvrl`, `learn_with_dvrl`
and `learn_with_baseline`, whose implementations live in the `dvrl`
package and are not part of the visible source.  Those components are
therefore modelled here from the specification's component contracts
(DatasetSplitter, FeaturePreprocessor, ValueWeightedTrainer,
BaselineTrainer, MetricEvaluator), with every such definition marked
`Modelled from the spec:` in its doc comment.  Machine floats are
modelled by exact rationals, with real square roots where the metric or
the standard scaler takes a square root.
-/

namespace DVRL

/- ### MetricEvaluator (RMSPE) -/

/-- Error raised by the metric evaluator when no row survives the
`actual ≠ 0` filter. -/
inductive MetricError where
  | degenerateMetric
  deriving DecidableEq, Repr

/-- Modelled from the spec: the per-row squared percentage errors used by
the MetricEvaluator inside `learn_with_dvrl` / `learn_with_baseline`
(implemented in `dvrl_metrics.py`, which is not in the visible source).
Rows are pairs of (actual, predicted); a row whose actual value is `0`
is excluded, and each surviving row contributes
`((actual - predicted) / actual)^2`. -/
def sqPctErrors (pred actual : List ℚ) : List ℚ :=
  (actual.zip pred).filterMap
    (fun ap => if ap.1 = 0 then none else some (((ap.1 - ap.2) / ap.1) ^ 2))

/-- Modelled from the spec: the mean of the squared percentage errors
(the square of RMSPE), failing with `degenerateMetric` when every row
was excluded. -/
def meanSqPctError (pred actual : List ℚ) : Except MetricError ℚ :=
  let es := sqPctErrors pred actual
  if es.length = 0 then .error .degenerateMetric
  else .ok (es.sum / es.length)

/-- Modelled from the spec: RMSPE, the square root of the mean of the
squared percentage errors over the rows where actual is nonzero. -/
noncomputable def rmspe (pred actual : List ℚ) : Except MetricError ℝ :=
  (meanSqPctError pred actual).map (fun q => Real.sqrt q)

theorem sqPctErrors_zero_cons (p : ℚ) (pred actual : List ℚ) :
    sqPctErrors (p :: pred) (0 :: actual) = sqPctErrors pred actual := by
  simp [sqPctErrors]

theorem sqPctErrors_eq_filter_map (pred actual : List ℚ) :
    sqPctErrors pred actual =
      ((actual.zip pred).filter (fun ap => ap.1 ≠ 0)).map
        (fun ap => ((ap.1 - ap.2) / ap.1) ^ 2) := by
  induction actual generalizing pred with
  | nil => simp [sqPctErrors]
  | cons a as ih =>
    cases pred with
    | nil => simp [sqPctErrors]
    | cons p ps =>
      have h2 := ih ps
      simp only [sqPctErrors, List.zip_cons_cons, List.filterMap_cons,
        List.filter_cons] at *
      by_cases h : a = 0 <;> simp [h, h2]

theorem sqPctErrors_ne_nil (pred actual : List ℚ)
    (hlen : pred.length = actual.length)
    (a : ℚ) (ha : a ∈ actual) (hne : a ≠ 0) :
    sqPctErrors pred actual ≠ [] := by
  induction actual generalizing pred with
  | nil => cases ha
  | cons b bs ih =>
    cases pred with
    | nil => simp at hlen
    | cons p ps =>
      by_cases hb : b = 0
      · subst hb
        rw [sqPctErrors_zero_cons]
        rcases List.mem_cons.mp ha with ha | ha
        · exact absurd ha hne
        · exact ih ps (by simpa using hlen) ha
      · simp [sqPctErrors, hb]

theorem sqPctErrors_all_zero (pred actual : List ℚ)
    (h : ∀ a ∈ actual, a = 0) :
    sqPctErrors pred actual = [] := by
  induction actual generalizing pred with
  | nil => simp [sqPctErrors]
  | cons b bs ih =>
    cases pred with
    | nil => simp [sqPctErrors]
    | cons p ps =>
      have hb : b = 0 := h b (by simp)
      subst hb
      rw [sqPctErrors_zero_cons]
      exact ih ps (fun a ha => h a (by simp [ha]))

/-- C2: for equal-length prediction and actual sequences with at least one
nonzero actual value, the metric evaluator succeeds and returns the square
root of the mean of the squared per-row percentage errors
`(actual - predicted) / actual`, taken over exactly the rows where actual
is nonzero, and the returned value is non-negative. -/
theorem rmspe_spec (pred actual : List ℚ)
    (hlen : pred.length = actual.length)
    (hnz : ∃ a ∈ actual, a ≠ 0) :
    ∃ q : ℚ,
      rmspe pred actual = .ok (Real.sqrt q) ∧
      0 ≤ Real.sqrt q ∧
      q = (((actual.zip pred).filter (fun ap => ap.1 ≠ 0)).map
            (fun ap => ((ap.1 - ap.2) / ap.1) ^ 2)).sum /
          (((actual.zip pred).filter (fun ap => ap.1 ≠ 0)).length : ℚ) := by
  obtain ⟨a, ha, hane⟩ := hnz
  have hne : sqPctErrors pred actual ≠ [] :=
    sqPctErrors_ne_nil pred actual hlen a ha hane
  have hlen0 : (sqPctErrors pred actual).length ≠ 0 := by
    simpa [List.length_eq_zero] using hne
  refine ⟨(sqPctErrors pred actual).sum /
      ((sqPctErrors pred actual).length : ℚ), ?_, Real.sqrt_nonneg _, ?_⟩
  · simp [rmspe, meanSqPctError, hlen0, Except.map]
  · rw [sqPctErrors_eq_filter_map]
    simp

/-- Witness for `rmspe_spec` at a concrete input: predictions `[1, 3]`
against actuals `[2, 4]`. -/
theorem rmspe_spec_witness :
    ∃ q : ℚ,
      rmspe [1, 3] [2, 4] = .ok (Real.sqrt q) ∧
      0 ≤ Real.sqrt q ∧
      q = ((([(2:ℚ), 4].zip [(1:ℚ), 3]).filter (fun ap => ap.1 ≠ 0)).map
            (fun ap => ((ap.1 - ap.2) / ap.1) ^ 2)).sum /
          ((([(2:ℚ), 4].zip [(1:ℚ), 3]).filter (fun ap => ap.1 ≠ 0)).length : ℚ) :=
  rmspe_spec [1, 3] [2, 4] (by decide) ⟨2, by decide, by decide⟩

/-- C5: a row whose actual value is `0` is excluded from the RMSPE mean
(prepending such a row leaves the evaluator's result unchanged), and when
every actual value is `0` the evaluator fails with the degenerate-metric
error instead of returning a value. -/
theorem rmspe_zero_rows (q : ℚ) (qs actl pred actual : List ℚ)
    (hz : ∀ a ∈ actual, a = 0) :
    rmspe (q :: qs) (0 :: actl) = rmspe qs actl ∧
    rmspe pred actual = .error .degenerateMetric := by
  constructor
  · simp [rmspe, meanSqPctError, sqPctErrors_zero_cons]
  · simp [rmspe, meanSqPctError, sqPctErrors_all_zero pred actual hz,
      Except.map]

/-- Witness for `rmspe_zero_rows` at a concrete input: all-zero actuals
`[0, 0]` make the evaluator fail, and a zero-actual row is dropped. -/
theorem rmspe_zero_rows_witness :
    rmspe [5, 1] [0, 2] = rmspe [1] [2] ∧
    rmspe [3, 4] [0, 0] = .error .degenerateMetric :=
  rmspe_zero_rows 5 [1] [2] [3, 4] [0, 0] (by decide)

/- ### DatasetSplitter -/

/-- A row of the raw table: a unique row identifier together with the
category column used for splitting (the Rossmann store type). -/
structure Row where
  id : Nat
  category : String
  deriving DecidableEq, Repr

/-- The three split settings of the notebook cell that calls
`load_rossmann_data`: `'train-on-all'`, `'train-on-rest'` and
`'train-on-specific'` (the spec's use-all-as-source,
use-complement-as-source and use-category-as-source policies). -/
inductive SplitPolicy where
  | trainOnAll
  | trainOnRest
  | trainOnSpecific
  deriving DecidableEq, Repr

/-- Error raised by the splitter when the requested counts exceed the
available eligible rows. -/
inductive SplitError where
  | insufficientData
  deriving DecidableEq, Repr

/-- A seedable random sampler, abstracting the splitter's random row
sampling: `pick k pool` returns `k` rows drawn from `pool` (whenever
`pool` has at least `k` rows). -/
structure Sampler where
  pick : Nat → List Row → List Row
  pick_mem : ∀ k pool, ∀ r ∈ pick k pool, r ∈ pool
  pick_length : ∀ k pool, k ≤ pool.length → (pick k pool).length = k

/-- The deterministic sampler that takes the first `k` rows of the pool:
one concrete instance of the splitter's seedable randomness. -/
def takeSampler : Sampler where
  pick := fun k pool => pool.take k
  pick_mem := fun k pool r hr => List.mem_of_mem_take hr
  pick_length := fun k pool h => by simp [List.length_take, h]

/-- All rows of the table whose category equals the target category:
validation is sampled from these and target is the rest of them. -/
def targetAllOf (table : List Row) (b : String) : List Row :=
  table.filter (fun r => r.category == b)

/-- The validation subset: a random sample of `validCount` rows having
the target category value. -/
def validationOf (S : Sampler) (table : List Row) (b : String)
    (validCount : Nat) : List Row :=
  S.pick validCount (targetAllOf table b)

/-- The target subset: all remaining rows having the target category
value, i.e. those not already used for validation. -/
def targetOf (S : Sampler) (table : List Row) (b : String)
    (validCount : Nat) : List Row :=
  (targetAllOf table b).filter
    (fun r => (validationOf S table b validCount).all (fun v => v.id != r.id))

/-- The rows selected per policy as candidates for the source subset:
all rows, rows excluding the target category, or rows with only the
target category. -/
def poolOf (table : List Row) (policy : SplitPolicy) (b : String) :
    List Row :=
  match policy with
  | .trainOnAll => table
  | .trainOnRest => table.filter (fun r => r.category != b)
  | .trainOnSpecific => targetAllOf table b

/-- The eligible source pool: the policy-selected rows minus every row
whose id is already used by the validation or target subset. -/
def eligiblePool (S : Sampler) (table : List Row) (policy : SplitPolicy)
    (b : String) (validCount : Nat) : List Row :=
  (poolOf table policy b).filter
    (fun r =>
      (validationOf S table b validCount ++ targetOf S table b validCount).all
        (fun u => u.id != r.id))

/-- Modelled from the spec: the DatasetSplitter of `load_rossmann_data`
(implemented in `data_loading.py`, which is not in the visible source).
The validation subset is a random sample of exactly `validCount` rows
having the target category value; the target subset is all remaining
rows having the target category value; the source subset is a random
sample of `sourceCount` rows drawn from rows selected per policy,
excluding rows already used for validation/target; it fails with
`insufficientData` if requested counts exceed available eligible rows. -/
def splitDataset (S : Sampler) (table : List Row) (policy : SplitPolicy)
    (b : String) (sourceCount validCount : Nat) :
    Except SplitError (List Row × List Row × List Row) :=
  if validCount ≤ (targetAllOf table b).length then
    if sourceCount ≤ (eligiblePool S table policy b validCount).length then
      .ok (S.pick sourceCount (eligiblePool S table policy b validCount),
        validationOf S table b validCount,
        targetOf S table b validCount)
    else .error .insufficientData
  else .error .insufficientData

theorem splitDataset_ok_elim (S : Sampler) (table : List Row)
    (policy : SplitPolicy) (b : String) (sourceCount validCount : Nat)
    (src val tgt : List Row)
    (h : splitDataset S table policy b sourceCount validCount =
      .ok (src, val, tgt)) :
    validCount ≤ (targetAllOf table b).length ∧
    sourceCount ≤ (eligiblePool S table policy b validCount).length ∧
    src = S.pick sourceCount (eligiblePool S table policy b validCount) ∧
    val = validationOf S table b validCount ∧
    tgt = targetOf S table b validCount := by
  by_cases h1 : validCount ≤ (targetAllOf table b).length
  · by_cases h2 : sourceCount ≤ (eligiblePool S table policy b validCount).length
    · rw [splitDataset, if_pos h1, if_pos h2] at h
      injection h with h
      injection h with ha h
      injection h with hb hc
      exact ⟨h1, h2, ha.symm, hb.symm, hc.symm⟩
    · rw [splitDataset, if_pos h1, if_neg h2] at h
      cases h
  · rw [splitDataset, if_neg h1] at h
    cases h

theorem not_mem_of_all_id_ne (l : List Row) (r : Row)
    (h : l.all (fun v => v.id != r.id) = true) : r ∉ l := by
  intro hr
  have := List.all_eq_true.mp h r hr
  simp at this

theorem mem_targetOf_not_mem_validation (S : Sampler) (table : List Row)
    (b : String) (validCount : Nat) (r : Row)
    (hr : r ∈ targetOf S table b validCount) :
    r ∉ validationOf S table b validCount :=
  not_mem_of_all_id_ne _ r (List.mem_filter.mp hr).2

theorem mem_eligible_not_mem (S : Sampler) (table : List Row)
    (policy : SplitPolicy) (b : String) (validCount : Nat) (r : Row)
    (hr : r ∈ eligiblePool S table policy b validCount) :
    r ∉ validationOf S table b validCount ∧
    r ∉ targetOf S table b validCount := by
  have h := (List.mem_filter.mp hr).2
  have h2 := not_mem_of_all_id_ne _ r h
  rw [List.mem_append] at h2
  push_neg at h2
  exact h2

/-- C1: for every sampler, input table, split policy, target category and
requested sizes, a successful split yields pairwise disjoint source,
validation and target partitions: no row appears in more than one. -/
theorem split_disjoint (S : Sampler) (table : List Row)
    (policy : SplitPolicy) (b : String) (sourceCount validCount : Nat)
    (src val tgt : List Row)
    (h : splitDataset S table policy b sourceCount validCount =
      .ok (src, val, tgt)) :
    (∀ r, ¬(r ∈ src ∧ r ∈ val)) ∧
    (∀ r, ¬(r ∈ src ∧ r ∈ tgt)) ∧
    (∀ r, ¬(r ∈ val ∧ r ∈ tgt)) := by
  obtain ⟨h1, h2, hsrc, hval, htgt⟩ :=
    splitDataset_ok_elim S table policy b sourceCount validCount src val tgt h
  subst hsrc hval htgt
  refine ⟨?_, ?_, ?_⟩
  · rintro r ⟨hrs, hrv⟩
    exact (mem_eligible_not_mem S table policy b validCount r
      (S.pick_mem _ _ r hrs)).1 hrv
  · rintro r ⟨hrs, hrt⟩
    exact (mem_eligible_not_mem S table policy b validCount r
      (S.pick_mem _ _ r hrs)).2 hrt
  · rintro r ⟨hrv, hrt⟩
    exact mem_targetOf_not_mem_validation S table b validCount r hrt hrv

/-- The ten-row example table of the spec's scenario: category column
values `[A,A,B,B,B,C,C,D,D,D]`. -/
def demoTable : List Row :=
  [⟨0, "A"⟩, ⟨1, "A"⟩, ⟨2, "B"⟩, ⟨3, "B"⟩, ⟨4, "B"⟩,
   ⟨5, "C"⟩, ⟨6, "C"⟩, ⟨7, "D"⟩, ⟨8, "D"⟩, ⟨9, "D"⟩]

/-- Witness for `split_disjoint` on the spec's ten-row scenario table
with the train-on-rest policy and target category `B`. -/
theorem split_disjoint_witness :
    (∀ r, ¬(r ∈ [Row.mk 0 "A", Row.mk 1 "A"] ∧ r ∈ [Row.mk 2 "B"])) ∧
    (∀ r, ¬(r ∈ [Row.mk 0 "A", Row.mk 1 "A"] ∧
      r ∈ [Row.mk 3 "B", Row.mk 4 "B"])) ∧
    (∀ r, ¬(r ∈ [Row.mk 2 "B"] ∧ r ∈ [Row.mk 3 "B", Row.mk 4 "B"])) :=
  split_disjoint takeSampler demoTable .trainOnRest "B" 2 1
    [Row.mk 0 "A", Row.mk 1 "A"] [Row.mk 2 "B"]
    [Row.mk 3 "B", Row.mk 4 "B"] rfl

/-- C4: under the train-on-rest policy (use-complement-as-source) with
target category `b`, no row of the source partition has category `b`. -/
theorem split_trainOnRest_source_no_target_category (S : Sampler)
    (table : List Row) (b : String) (sourceCount validCount : Nat)
    (src val tgt : List Row)
    (h : splitDataset S table .trainOnRest b sourceCount validCount =
      .ok (src, val, tgt)) :
    ∀ r ∈ src, r.category ≠ b := by
  obtain ⟨h1, h2, hsrc, hval, htgt⟩ :=
    splitDataset_ok_elim S table .trainOnRest b sourceCount validCount
      src val tgt h
  subst hsrc
  intro r hr
  have hre : r ∈ eligiblePool S table .trainOnRest b validCount :=
    S.pick_mem _ _ r hr
  have hrp : r ∈ poolOf table .trainOnRest b := (List.mem_filter.mp hre).1
  have := (List.mem_filter.mp hrp).2
  simpa using this

/-- Witness for `split_trainOnRest_source_no_target_category` on the
ten-row scenario table. -/
theorem split_trainOnRest_witness :
    (Row.mk 0 "A").category ≠ "B" :=
  split_trainOnRest_source_no_target_category takeSampler demoTable "B" 2 1
    [Row.mk 0 "A", Row.mk 1 "A"] [Row.mk 2 "B"]
    [Row.mk 3 "B", Row.mk 4 "B"] rfl (Row.mk 0 "A") (by decide)

theorem length_filter_add_length_filter_le {α : Type} (l : List α)
    (p q : α → Bool) (h : ∀ x ∈ l, p x = true → q x = false) :
    (l.filter p).length + (l.filter q).length ≤ l.length := by
  induction l with
  | nil => simp
  | cons a as ih =>
    have ih2 := ih (fun x hx => h x (by simp [hx]))
    by_cases hp : p a = true
    · have hq : q a = false := h a (by simp) hp
      simp only [List.filter_cons, hp, hq, if_true, Bool.false_eq_true,
        if_false, List.length_cons]
      omega
    · rw [Bool.not_eq_true] at hp
      by_cases hq : q a = true
      · simp only [List.filter_cons, hp, hq, if_true, Bool.false_eq_true,
          if_false, List.length_cons]
        omega
      · rw [Bool.not_eq_true] at hq
        simp only [List.filter_cons, hp, hq, Bool.false_eq_true, if_false,
          List.length_cons]
        omega

theorem eligible_pred_false (S : Sampler) (table : List Row) (b : String)
    (validCount : Nat) (x : Row) (hx : x ∈ targetAllOf table b) :
    ((validationOf S table b validCount ++ targetOf S table b validCount).all
      (fun u => u.id != x.id)) = false := by
  rw [Bool.eq_false_iff]
  intro hall
  by_cases hv : (validationOf S table b validCount).all
      (fun v => v.id != x.id) = true
  · have hxt : x ∈ targetOf S table b validCount :=
      List.mem_filter.mpr ⟨hx, hv⟩
    have := List.all_eq_true.mp hall x (List.mem_append_right _ hxt)
    simp at this
  · rw [List.all_eq_true] at hv
    push_neg at hv
    obtain ⟨v, hvmem, hvne⟩ := hv
    have hvid : v.id = x.id := by
      by_contra hne
      exact hvne (by simpa using hne)
    have := List.all_eq_true.mp hall v (List.mem_append_left _ hvmem)
    simp [hvid] at this

theorem eligible_add_targetAll_le (S : Sampler) (table : List Row)
    (policy : SplitPolicy) (b : String) (validCount : Nat) :
    (eligiblePool S table policy b validCount).length +
      (targetAllOf table b).length ≤ table.length := by
  have key : ∀ x ∈ table, x.category = b →
      ((validationOf S table b validCount ++
        targetOf S table b validCount).all (fun u => u.id != x.id)) = false := by
    intro x hx hcat
    exact eligible_pred_false S table b validCount x
      (List.mem_filter.mpr ⟨hx, by simp [hcat]⟩)
  cases policy with
  | trainOnAll =>
    apply length_filter_add_length_filter_le
    intro x hx hp
    by_cases hcat : x.category = b
    · rw [key x hx hcat] at hp
      cases hp
    · simp [hcat]
  | trainOnRest =>
    unfold eligiblePool poolOf
    rw [List.filter_filter]
    apply length_filter_add_length_filter_le
    intro x hx hp
    rw [Bool.and_eq_true] at hp
    have : x.category ≠ b := by simpa using hp.2
    simp [this]
  | trainOnSpecific =>
    have hnil : eligiblePool S table .trainOnSpecific b validCount = [] := by
      unfold eligiblePool poolOf
      rw [List.filter_eq_nil_iff]
      intro x hx
      rw [eligible_pred_false S table b validCount x hx]
      simp
    rw [hnil]
    simpa [targetAllOf] using List.length_filter_le _ table

/-- C7 as stated fails in the model: under the train-on-rest policy on
the ten-row scenario table the rows eligible after category filtering
are the 7 non-`B` rows, yet requesting 7 source rows plus 1 validation
row succeeds with no insufficient-data error — because the validation
row is drawn from the target-category rows, outside the policy-filtered
pool — and the resulting source and validation partitions together hold
8 rows, exceeding those 7 eligible rows. -/
theorem split_eligible_bound_counterexample :
    splitDataset takeSampler demoTable .trainOnRest "B" 7 1 =
      .ok ([Row.mk 0 "A", Row.mk 1 "A", Row.mk 5 "C", Row.mk 6 "C",
            Row.mk 7 "D", Row.mk 8 "D", Row.mk 9 "D"],
           [Row.mk 2 "B"], [Row.mk 3 "B", Row.mk 4 "B"]) ∧
    (poolOf demoTable .trainOnRest "B").length <
      [Row.mk 0 "A", Row.mk 1 "A", Row.mk 5 "C", Row.mk 6 "C",
        Row.mk 7 "D", Row.mk 8 "D", Row.mk 9 "D"].length +
        [Row.mk 2 "B"].length := by
  constructor
  · rfl
  · decide

/-- C7 (amended): a split request fails with the insufficient-data error
exactly when the requested validation count exceeds the number of
target-category rows or the requested source count exceeds the eligible
source pool (the policy-filtered rows minus those already used for
validation/target); consequently every successful split has source size
within the eligible pool, validation size within the target-category
rows, and source size + validation size at most the total number of
table rows. -/
theorem split_insufficient_iff (S : Sampler) (table : List Row)
    (policy : SplitPolicy) (b : String) (sourceCount validCount : Nat) :
    (splitDataset S table policy b sourceCount validCount =
        .error .insufficientData ↔
      ((targetAllOf table b).length < validCount ∨
        (eligiblePool S table policy b validCount).length < sourceCount)) ∧
    (∀ src val tgt,
      splitDataset S table policy b sourceCount validCount =
        .ok (src, val, tgt) →
      src.length ≤ (eligiblePool S table policy b validCount).length ∧
      val.length ≤ (targetAllOf table b).length ∧
      src.length + val.length ≤ table.length) := by
  have hbound : ∀ src val tgt,
      splitDataset S table policy b sourceCount validCount =
        .ok (src, val, tgt) →
      src.length ≤ (eligiblePool S table policy b validCount).length ∧
      val.length ≤ (targetAllOf table b).length ∧
      src.length + val.length ≤ table.length := by
    intro src val tgt h
    obtain ⟨h1, h2, hsrc, hval, -⟩ :=
      splitDataset_ok_elim S table policy b sourceCount validCount
        src val tgt h
    subst hsrc hval
    unfold validationOf
    rw [S.pick_length _ _ h2, S.pick_length _ _ h1]
    have htot := eligible_add_targetAll_le S table policy b validCount
    exact ⟨h2, h1, by omega⟩
  refine ⟨?_, hbound⟩
  by_cases h1 : validCount ≤ (targetAllOf table b).length
  · by_cases h2 : sourceCount ≤ (eligiblePool S table policy b validCount).length
    · rw [splitDataset, if_pos h1, if_pos h2]
      constructor
      · intro h
        cases h
      · intro h
        omega
    · rw [splitDataset, if_pos h1, if_neg h2]
      exact ⟨fun _ => Or.inr (by omega), fun _ => rfl⟩
  · rw [splitDataset, if_neg h1]
    exact ⟨fun _ => Or.inl (by omega), fun _ => rfl⟩

/-- Witness for `split_insufficient_iff`: on the ten-row scenario table
under train-on-rest, requesting 8 source rows against the 7-row eligible
pool fails with the insufficient-data error, and the successful split
with 2 source rows and 1 validation row has sizes within the eligible
pool, the target-category rows and the table. -/
theorem split_insufficient_iff_witness :
    splitDataset takeSampler demoTable .trainOnRest "B" 8 1 =
      .error .insufficientData ∧
    [Row.mk 0 "A", Row.mk 1 "A"].length ≤
      (eligiblePool takeSampler demoTable .trainOnRest "B" 1).length ∧
    [Row.mk 2 "B"].length ≤ (targetAllOf demoTable "B").length ∧
    [Row.mk 0 "A", Row.mk 1 "A"].length + [Row.mk 2 "B"].length ≤
      demoTable.length :=
  ⟨(split_insufficient_iff takeSampler demoTable .trainOnRest "B" 8 1).1.mpr
      (Or.inr (by decide)),
   (split_insufficient_iff takeSampler demoTable .trainOnRest "B" 2 1).2
      [Row.mk 0 "A", Row.mk 1 "A"] [Row.mk 2 "B"]
      [Row.mk 3 "B", Row.mk 4 "B"] rfl⟩

/- ### FeaturePreprocessor -/

/-- The two normalization methods offered by the notebook cell that calls
`preprocess_data`: `'minmax'` or `'standard'`. -/
inductive NormMethod where
  | minmax
  | standard
  deriving DecidableEq, Repr

/-- Mean of a rational column (0 for the empty column, since rational
division by zero is zero). -/
def meanQ (l : List ℚ) : ℚ := l.sum / l.length

/-- Population variance of a rational column. -/
def varQ (l : List ℚ) : ℚ := meanQ (l.map (fun x => (x - meanQ l) ^ 2))

/-- Modelled from the spec: the per-column normalization parameters of
the FeaturePreprocessor of `preprocess_data` (implemented in
`data_loading.py`, which is not in the visible source): min/max of the
column for `minmax`, mean/variance for `standard`. -/
def fitColumn : NormMethod → List ℚ → ℚ × ℚ
  | .minmax, [] => (0, 0)
  | .minmax, x :: xs => (xs.foldr min x, xs.foldr max x)
  | .standard, col => (meanQ col, varQ col)

/-- Modelled from the spec: applying fitted normalization parameters to
one value. For `minmax` the value is rescaled to `(x - lo) / (hi - lo)`
(0 for a constant column); for `standard` it is centred by the mean and
divided by the standard deviation, i.e. the square root of the stored
variance (a zero-variance column divides by 1, as the underlying scaler
does). -/
noncomputable def applyNormR : NormMethod → ℚ × ℚ → ℚ → ℝ
  | .minmax, p, x =>
      if p.2 = p.1 then 0 else ((x : ℝ) - (p.1 : ℝ)) / ((p.2 : ℝ) - (p.1 : ℝ))
  | .standard, p, x =>
      ((x : ℝ) - (p.1 : ℝ)) / (if p.2 = 0 then 1 else Real.sqrt (p.2 : ℝ))

/-- Fitted parameters for every feature column. -/
def fitAll (m : NormMethod) (cols : List (List ℚ)) : List (ℚ × ℚ) :=
  cols.map (fitColumn m)

/-- Apply previously fitted per-column parameters to a feature table
(given column-wise). -/
noncomputable def applyAll (m : NormMethod) (ps : List (ℚ × ℚ))
    (cols : List (List ℚ)) : List (List ℝ) :=
  (ps.zip cols).map (fun pc => pc.2.map (applyNormR m pc.1))

/-- Modelled from the spec: the FeaturePreprocessor of `preprocess_data`
(implemented in `data_loading.py`, which is not in the visible source).
It fits the normalization transform on the source partition's features
only and applies the fitted transform to source, validation and target
features; labels pass through untouched; the fitted parameters are
returned for potential reuse. -/
noncomputable def preprocess (m : NormMethod)
    (srcF validF tgtF : List (List ℚ)) (srcL validL tgtL : List ℚ) :
    (List (List ℝ) × List ℚ) × (List (List ℝ) × List ℚ) ×
      (List (List ℝ) × List ℚ) × List (ℚ × ℚ) :=
  let ps := fitAll m srcF
  ((applyAll m ps srcF, srcL), (applyAll m ps validF, validL),
    (applyAll m ps tgtF, tgtL), ps)

/-- C3: the normalization parameters are fit exactly once, on the source
partition's features only, and the same frozen parameters are applied
unchanged to the source, validation and target partitions; replacing the
validation and target partitions by any others leaves the fitted
parameters identical. -/
theorem preprocess_fit_on_source_only (m : NormMethod)
    (srcF validF tgtF validF2 tgtF2 : List (List ℚ))
    (srcL validL tgtL validL2 tgtL2 : List ℚ) :
    (preprocess m srcF validF tgtF srcL validL tgtL).2.2.2 = fitAll m srcF ∧
    (preprocess m srcF validF tgtF srcL validL tgtL).1.1 =
      applyAll m (fitAll m srcF) srcF ∧
    (preprocess m srcF validF tgtF srcL validL tgtL).2.1.1 =
      applyAll m (fitAll m srcF) validF ∧
    (preprocess m srcF validF tgtF srcL validL tgtL).2.2.1.1 =
      applyAll m (fitAll m srcF) tgtF ∧
    (preprocess m srcF validF tgtF srcL validL tgtL).2.2.2 =
      (preprocess m srcF validF2 tgtF2 srcL validL2 tgtL2).2.2.2 :=
  ⟨rfl, rfl, rfl, rfl, rfl⟩

/-- Mean of a real column. -/
noncomputable def meanR (l : List ℝ) : ℝ := l.sum / l.length

/-- Population variance of a real column. -/
noncomputable def varR (l : List ℝ) : ℝ :=
  meanR (l.map (fun y => (y - meanR l) ^ 2))

/-- One column run through the fitted standard transform: exactly what
`applyAll NormMethod.standard` does to that column of the source
partition. -/
noncomputable def standardizeR (col : List ℚ) : List ℝ :=
  col.map (applyNormR .standard (fitColumn .standard col))

theorem foldr_min_le (ys : List ℚ) (y x : ℚ) (hx : x ∈ y :: ys) :
    ys.foldr min y ≤ x := by
  induction ys generalizing x with
  | nil =>
    rw [List.mem_singleton] at hx
    simp [hx]
  | cons z zs ih =>
    simp only [List.foldr_cons]
    rcases List.mem_cons.mp hx with h | h
    · exact le_trans (min_le_right _ _) (ih x (by simp [h]))
    · rcases List.mem_cons.mp h with h2 | h2
      · subst h2
        exact min_le_left _ _
      · exact le_trans (min_le_right _ _) (ih x (by simp [h2]))

theorem le_foldr_max (ys : List ℚ) (y x : ℚ) (hx : x ∈ y :: ys) :
    x ≤ ys.foldr max y := by
  induction ys generalizing x with
  | nil =>
    rw [List.mem_singleton] at hx
    simp [hx]
  | cons z zs ih =>
    simp only [List.foldr_cons]
    rcases List.mem_cons.mp hx with h | h
    · exact le_trans (ih x (by simp [h])) (le_max_right _ _)
    · rcases List.mem_cons.mp h with h2 | h2
      · subst h2
        exact le_max_left _ _
      · exact le_trans (ih x (by simp [h2])) (le_max_right _ _)

theorem minmax_mem_unit (col : List ℚ) (x : ℚ) (hx : x ∈ col) :
    0 ≤ applyNormR .minmax (fitColumn .minmax col) x ∧
    applyNormR .minmax (fitColumn .minmax col) x ≤ 1 := by
  cases col with
  | nil => cases hx
  | cons y ys =>
    have hlo : ys.foldr min y ≤ x := foldr_min_le ys y x hx
    have hhi : x ≤ ys.foldr max y := le_foldr_max ys y x hx
    simp only [fitColumn, applyNormR]
    by_cases h : ys.foldr max y = ys.foldr min y
    · rw [if_pos h]
      norm_num
    · rw [if_neg h]
      have hle : ys.foldr min y ≤ ys.foldr max y := le_trans hlo hhi
      have hlt : ((ys.foldr min y : ℚ) : ℝ) < ((ys.foldr max y : ℚ) : ℝ) :=
        Rat.cast_lt.mpr (lt_of_le_of_ne hle (fun e => h e.symm))
      have hxlo : ((ys.foldr min y : ℚ) : ℝ) ≤ ((x : ℚ) : ℝ) :=
        Rat.cast_le.mpr hlo
      have hxhi : ((x : ℚ) : ℝ) ≤ ((ys.foldr max y : ℚ) : ℝ) :=
        Rat.cast_le.mpr hhi
      constructor
      · apply div_nonneg <;> linarith
      · rw [div_le_one (by linarith)]
        linarith

theorem varQ_nonneg (l : List ℚ) : 0 ≤ varQ l := by
  unfold varQ meanQ
  apply div_nonneg
  · apply List.sum_nonneg
    intro x hx
    rw [List.mem_map] at hx
    obtain ⟨a, -, rfl⟩ := hx
    positivity
  · positivity

theorem sum_map_affineR (col : List ℚ) (c d : ℝ) :
    (col.map (fun x : ℚ => (((x : ℚ) : ℝ) - c) * d)).sum =
      (((col.sum : ℚ) : ℝ) - (col.length : ℝ) * c) * d := by
  induction col with
  | nil => simp
  | cons a as ih =>
    rw [List.map_cons, List.sum_cons, ih, List.sum_cons, List.length_cons]
    push_cast
    ring

theorem cast_sum_map (col : List ℚ) (g : ℚ → ℚ) :
    (((col.map g).sum : ℚ) : ℝ) =
      (col.map (fun x => ((g x : ℚ) : ℝ))).sum := by
  induction col with
  | nil => simp
  | cons a as ih =>
    simp only [List.map_cons, List.sum_cons]
    push_cast [ih]
    ring

theorem standardizeR_eq (col : List ℚ) :
    standardizeR col = col.map (fun x =>
      (((x : ℚ) : ℝ) - ((meanQ col : ℚ) : ℝ)) *
        (if varQ col = 0 then (1 : ℝ)
          else Real.sqrt ((varQ col : ℚ) : ℝ))⁻¹) := by
  unfold standardizeR
  apply List.map_congr_left
  intro x hx
  simp only [fitColumn, applyNormR, div_eq_mul_inv]

theorem standardizeR_mean_zero (col : List ℚ) (hcol : col ≠ []) :
    meanR (standardizeR col) = 0 := by
  have hn : (col.length : ℚ) ≠ 0 := by
    simpa [List.length_eq_zero] using hcol
  have hsum : (col.sum : ℚ) = (col.length : ℚ) * meanQ col := by
    unfold meanQ
    field_simp
  rw [meanR, standardizeR_eq, sum_map_affineR, List.length_map]
  rw [show (((col.sum : ℚ) : ℝ)) = ((col.length : ℝ) * ((meanQ col : ℚ) : ℝ))
    from by exact_mod_cast hsum]
  simp

theorem standardizeR_var_one (col : List ℚ) (hcol : col ≠ [])
    (hv : varQ col ≠ 0) :
    varR (standardizeR col) = 1 := by
  have hn : (col.length : ℚ) ≠ 0 := by
    simpa [List.length_eq_zero] using hcol
  have hnR : (col.length : ℝ) ≠ 0 := by exact_mod_cast hn
  have hv0 : (0 : ℝ) < ((varQ col : ℚ) : ℝ) := by
    exact_mod_cast lt_of_le_of_ne (varQ_nonneg col) (Ne.symm hv)
  have hsq : Real.sqrt ((varQ col : ℚ) : ℝ) ^ 2 = ((varQ col : ℚ) : ℝ) :=
    Real.sq_sqrt (le_of_lt hv0)
  have hsqsum : ((col.map (fun x => (x - meanQ col) ^ 2)).sum : ℚ) =
      (col.length : ℚ) * varQ col := by
    unfold varQ meanQ
    rw [List.length_map]
    field_simp
  rw [varR, standardizeR_mean_zero col hcol, standardizeR_eq, if_neg hv]
  rw [meanR, List.map_map, List.length_map]
  have hmap : (List.map ((fun y => (y - 0) ^ 2) ∘ fun x : ℚ =>
      (((x : ℚ) : ℝ) - ((meanQ col : ℚ) : ℝ)) *
        (Real.sqrt ((varQ col : ℚ) : ℝ))⁻¹) col).sum =
      (List.map (fun x : ℚ => ((((x - meanQ col) ^ 2 : ℚ)) : ℝ)) col).sum *
        ((Real.sqrt ((varQ col : ℚ) : ℝ))⁻¹) ^ 2 := by
    rw [← List.sum_map_mul_right]
    apply congrArg
    apply List.map_congr_left
    intro x hx
    simp only [Function.comp]
    push_cast
    ring
  rw [hmap, ← cast_sum_map col (fun x => (x - meanQ col) ^ 2)]
  rw [show (((col.map (fun x => (x - meanQ col) ^ 2)).sum : ℚ) : ℝ) =
      ((col.length : ℝ) * ((varQ col : ℚ) : ℝ)) from by exact_mod_cast hsqsum]
  rw [inv_pow, hsq]
  field_simp

/-- C9 as stated fails on a constant column: the fitted standard
transform sends the column `[2, 2]` to `[0, 0]`, whose variance (and
hence standard deviation) is 0, not approximately 1. -/
theorem standardize_const_var_ne_one :
    varR (standardizeR [2, 2]) ≠ 1 := by
  have h1 : standardizeR [2, 2] = [0, 0] := by
    have hfit : fitColumn .standard [2, 2] = (2, 0) := by
      unfold fitColumn varQ meanQ
      norm_num
    unfold standardizeR
    rw [hfit]
    simp only [applyNormR, List.map_cons, List.map_nil]
    norm_num
  rw [h1]
  unfold varR meanR
  norm_num

/-- C9 (amended): applying the fitted minmax transform back to a source
column yields values within `[0, 1]`, and applying the fitted standard
transform yields mean exactly 0 and, whenever the column's variance is
nonzero, variance (hence standard deviation) exactly 1; a constant
column is the one exception, being sent to all zeros. -/
theorem normalization_roundtrip (col : List ℚ) (x : ℚ)
    (hx : x ∈ col) (hcol : col ≠ []) :
    (0 ≤ applyNormR .minmax (fitColumn .minmax col) x ∧
      applyNormR .minmax (fitColumn .minmax col) x ≤ 1) ∧
    meanR (standardizeR col) = 0 ∧
    (varQ col ≠ 0 → varR (standardizeR col) = 1 ∧
      Real.sqrt (varR (standardizeR col)) = 1) := by
  refine ⟨minmax_mem_unit col x hx, standardizeR_mean_zero col hcol, ?_⟩
  intro hv
  refine ⟨standardizeR_var_one col hcol hv, ?_⟩
  rw [standardizeR_var_one col hcol hv]
  exact Real.sqrt_one

/-- Witness for `normalization_roundtrip` on the concrete column
`[1, 3]`. -/
theorem normalization_roundtrip_witness :
    (0 ≤ applyNormR .minmax (fitColumn .minmax [1, 3]) 1 ∧
      applyNormR .minmax (fitColumn .minmax [1, 3]) 1 ≤ 1) ∧
    meanR (standardizeR [1, 3]) = 0 ∧
    (varQ [1, 3] ≠ 0 → varR (standardizeR [1, 3]) = 1 ∧
      Real.sqrt (varR (standardizeR [1, 3])) = 1) :=
  normalization_roundtrip [1, 3] 1 (by decide) (by decide)

/- ### ValueWeightedTrainer, BaselineTrainer and the DVRL pipeline -/

/-- Error raised by the value-weighted trainer on a weight/row count
mismatch. -/
inductive TrainError where
  | shapeMismatch
  deriving DecidableEq, Repr

/-- The external regression model interface of the spec: a capability
with `fit(features, labels, sample_weight=None)` and
`predict(features)`, polymorphic over the model type. -/
structure Regressor (F L M : Type) where
  fit : List F → List L → Option (List ℚ) → M
  predict : M → List F → List L

/-- Modelled from the spec: the ValueWeightedTrainer of
`learn_with_dvrl` (implemented in `dvrl_metrics.py`, which is not in
the visible source). Given source features/labels, a per-row weight
vector and a model state, it fails with `shapeMismatch` when the weight
vector's length differs from the number of source rows — leaving the
model state unchanged, with no partial fit — and otherwise fits the
model with the weighted samples and predicts on the target features. -/
def vwTrain {F L M : Type} (R : Regressor F L M) (st : M)
    (xs : List F) (ys : List L) (w : List ℚ) (xt : List F) :
    (M × List L) × Option TrainError :=
  if w.length ≠ xs.length then ((st, []), some .shapeMismatch)
  else
    let m := R.fit xs ys (some w)
    ((m, R.predict m xt), none)

/-- Modelled from the spec: the BaselineTrainer of
`learn_with_baseline` (implemented in `dvrl_metrics.py`, which is not
in the visible source): identical to the value-weighted trainer but
with implicit uniform weights, fitting the model without an explicit
weight vector and predicting on the target features. -/
def baselineTrain {F L M : Type} (R : Regressor F L M) (_st : M)
    (xs : List F) (ys : List L) (xt : List F) :
    (M × List L) × Option TrainError :=
  let m := R.fit xs ys none
  ((m, R.predict m xt), none)

/-- Modelled from the spec: a concrete regression model satisfying the
external model interface — the constant predictor minimizing the
(weighted) squared loss, which predicts the weighted mean of the
labels; weights act directly as importance multipliers, and an omitted
weight vector means every row counts once. -/
def meanRegressor : Regressor ℚ ℚ ℚ where
  fit := fun _ ys w =>
    match w with
    | none => ys.sum / ys.length
    | some w => ((ys.zip w).map (fun p => p.1 * p.2)).sum / w.sum
  predict := fun m xt => xt.map (fun _ => m)

theorem replicate_one_zip_sum (ys : List ℚ) :
    ((ys.zip (List.replicate ys.length (1 : ℚ))).map
      (fun p => p.1 * p.2)).sum = ys.sum := by
  induction ys with
  | nil => simp
  | cons a as ih => simp [List.replicate_succ, ih]

theorem meanRegressor_uniform (xs ys : List ℚ)
    (hlen : ys.length = xs.length) :
    meanRegressor.fit xs ys none =
      meanRegressor.fit xs ys (some (List.replicate xs.length 1)) := by
  rw [← hlen]
  simp only [meanRegressor, replicate_one_zip_sum, List.sum_replicate,
    nsmul_eq_mul, mul_one]

/-- C6: whenever the weight vector's length differs from the number of
source rows, the value-weighted trainer fails with the shape-mismatch
error and performs no partial fit: the returned model state is the
unchanged input state. -/
theorem vwTrain_shape_mismatch {F L M : Type} (R : Regressor F L M)
    (st : M) (xs : List F) (ys : List L) (w : List ℚ) (xt : List F)
    (h : w.length ≠ xs.length) :
    vwTrain R st xs ys w xt = ((st, []), some .shapeMismatch) := by
  simp [vwTrain, h]

/-- Witness for `vwTrain_shape_mismatch`: an empty weight vector against
one source row. -/
theorem vwTrain_shape_mismatch_witness :
    vwTrain meanRegressor 0 [(1 : ℚ)] [(2 : ℚ)] [] [] =
      ((0, []), some .shapeMismatch) :=
  vwTrain_shape_mismatch meanRegressor 0 [1] [2] [] [] (by decide)

/-- C8: for every model whose fit treats an omitted weight vector as
implicit uniform weights (weight 1 for every source row — the documented
behaviour of the underlying gradient-boosting model), the baseline
trainer produces exactly the same fitted model and predictions as the
value-weighted trainer invoked with a weight vector of all ones. -/
theorem baseline_eq_uniform_weights {F L M : Type} (R : Regressor F L M)
    (st : M) (xs : List F) (ys : List L) (xt : List F)
    (huw : R.fit xs ys none =
      R.fit xs ys (some (List.replicate xs.length 1))) :
    baselineTrain R st xs ys xt =
      vwTrain R st xs ys (List.replicate xs.length 1) xt := by
  rw [vwTrain, if_neg (by simp)]
  rw [baselineTrain, huw]

/-- Witness for `baseline_eq_uniform_weights` with the concrete
weighted-mean regressor on two source rows. -/
theorem baseline_eq_uniform_weights_witness :
    baselineTrain meanRegressor 0 [(10 : ℚ), 20] [(3 : ℚ), 5] [(7 : ℚ)] =
      vwTrain meanRegressor 0 [10, 20] [3, 5] (List.replicate 2 1) [7] :=
  baseline_eq_uniform_weights meanRegressor 0 [10, 20] [3, 5] [7]
    (meanRegressor_uniform [10, 20] [3, 5] (by decide))

/-- The external data valuator capability of the spec:
`score(features, labels) -> weight_vector`, producing one value score
per source row. -/
structure Valuator (F L : Type) where
  score : List F → List L → List ℚ
  score_length : ∀ xs ys, (score xs ys).length = xs.length

/-- The uniform valuator: scores every source row 1. -/
def uniformValuator (F L : Type) : Valuator F L where
  score := fun xs2 _ => List.replicate xs2.length 1
  score_length := fun _ _ => List.length_replicate _ _

/-- The notebook's evaluation pipeline fragment, as written in the
source: `dve_out = dvrl_class.data_valuator(x_source, y_source)`
followed by `learn_with_dvrl(dve_out, eval_model, x_source, y_source,
...)` on the very same source arrays. -/
def dvrlPipeline {F L M : Type} (V : Valuator F L) (R : Regressor F L M)
    (st : M) (xs : List F) (ys : List L) (xt : List F) :
    (M × List L) × Option TrainError :=
  vwTrain R st xs ys (V.score xs ys) xt

/-- C10: in the pipeline as written, the weight vector handed to the
value-weighted trainer is the valuator's output on the very same source
arrays used for training, so its length equals the number of source
rows and the shape-mismatch branch is unreachable: the pipeline always
takes the successful fit-and-predict path. -/
theorem dvrlPipeline_no_shape_mismatch {F L M : Type} (V : Valuator F L)
    (R : Regressor F L M) (st : M) (xs : List F) (ys : List L)
    (xt : List F) :
    (V.score xs ys).length = xs.length ∧
    dvrlPipeline V R st xs ys xt =
      ((R.fit xs ys (some (V.score xs ys)),
        R.predict (R.fit xs ys (some (V.score xs ys))) xt), none) := by
  refine ⟨V.score_length xs ys, ?_⟩
  rw [dvrlPipeline, vwTrain, if_neg (by simp [V.score_length xs ys])]

end DVRL
